import Mathlib

/-!
Verification of the processor emulator (processor_emulator.py).

The development shallowly embeds the core of the `Emulator` class: the
parser (`parse_program`), the addressing resolver (`get_value` /
`set_value` / `decode_operand`), the memory accessors
(`set_memory` / `get_memory`), the single-step executor
(`execute_step`) and the auto-run driver (`run_auto`).

Modelling conventions:
* Python integers are `Int` (arbitrary precision, as in the source).
* The register dictionary has exactly four fixed keys, so it is a
  four-field structure.
* The data-memory dictionary is an association list with unique keys;
  `dictSet` updates in place or appends, `dictGet` is `dict.get(a, 0)`.
* `pc` is an `Int`: jump instructions compute `get_value(target) - 1`,
  which can be negative.  The fetch `self.program[self.pc]` uses Python
  list indexing, which wraps negative indices in `[-len, 0)` and raises
  an uncaught `IndexError` below `-len`; `pyListGet` models this, and
  an uncaught exception is the `none` result of `execute_step`.
* The `div` opcode in the source computes `int(a / b)` with Python float
  true division.  Its control flow is modelled exactly: when the
  correctly rounded quotient overflows the double range
  (`divOverflow`), the dispatch raises and the except clause records an
  execution failure without advancing `pc` or `executed_count`.  The
  value written on the non-overflowing path is modelled as exact
  truncation toward zero (`Int.tdiv`); its rounding divergence from the
  float path at quotient magnitudes of 2^53 and above is recorded in
  the verification results for the division claim and is unreachable in
  every concrete program evaluated below.
* The `try/except` around the dispatch can only be triggered by that
  float `OverflowError`: every other operation in the block is total on
  Python integers.
-/

/-! ## Python string helpers -/

/-- Whitespace characters stripped by Python `str.strip()` and used as
separators by `str.split()` (ASCII subset). -/
def isPyWs (c : Char) : Bool :=
  c = ' ' ∨ c = '\t' ∨ c = '\n' ∨ c = '\r' ∨ c = '\x0b' ∨ c = '\x0c'

/-- Python `str.strip()` on a character list. -/
def pystripL (l : List Char) : List Char :=
  ((l.dropWhile isPyWs).reverse.dropWhile isPyWs).reverse

/-- Python `str.strip()`. -/
def pystrip (s : String) : String := ⟨pystripL s.data⟩

/-- Helper for `pysplitWs`: accumulate the current token (reversed). -/
def pysplitWsAux : List Char → List Char → List String
  | [], cur => if cur = [] then [] else [⟨cur.reverse⟩]
  | c :: rest, cur =>
    if isPyWs c then
      if cur = [] then pysplitWsAux rest []
      else ⟨cur.reverse⟩ :: pysplitWsAux rest []
    else pysplitWsAux rest (c :: cur)

/-- Python `str.split()` with no argument: split on whitespace runs,
discarding empty tokens. -/
def pysplitWs (s : String) : List String := pysplitWsAux s.data []

/-- Helper for `splitNl`: accumulate the current line (reversed). -/
def splitNlAux : List Char → List Char → List String
  | [], cur => [⟨cur.reverse⟩]
  | c :: rest, cur =>
    if c = '\n' then ⟨cur.reverse⟩ :: splitNlAux rest []
    else splitNlAux rest (c :: cur)

/-- Python `str.split('\n')`: separator split, keeping empty pieces. -/
def splitNl (s : String) : List String := splitNlAux s.data []

/-- Python `str.lower()` (ASCII letters, which is all the parser needs
for opcode matching). -/
def toLowerStr (s : String) : String := ⟨s.data.map Char.toLower⟩

/-- Digit-run shape check for Python `int(str)`: at least one digit,
underscores only between digits.  The boolean argument records whether
the previous character was a digit. -/
def scanDigits : List Char → Bool → Bool
  | [], prevD => prevD
  | c :: rest, prevD =>
    if c.isDigit then scanDigits rest true
    else if c = '_' then prevD && scanDigits rest false
    else false

/-- Numeric value of a digit run, skipping underscores. -/
def digitsVal (l : List Char) : Nat :=
  l.foldl (fun a c => if c.isDigit then a * 10 + (c.toNat - 48) else a) 0

/-- Python `int(str)` for base-10 literals: surrounding whitespace,
an optional sign, then digits with optional single underscores between
them.  `none` models the `ValueError` the source catches. -/
def pyint (s : String) : Option Int :=
  let t := pystripL s.data
  let p : Int × List Char :=
    match t with
    | '+' :: r => (1, r)
    | '-' :: r => (-1, r)
    | r => (1, r)
  if scanDigits p.2 false then some (p.1 * (digitsVal p.2 : Int)) else none

/-! ## Data model -/

/-- Instruction record: opcode (lowercased), two operand tokens (empty
string when missing) and the raw (stripped) source line. -/
structure Instruction where
  opcode : String
  operand1 : String
  operand2 : String
  raw : String
deriving Repr, DecidableEq

/-- The four-register file `{'eax': .., 'ebx': .., 'ecx': .., 'edx': ..}`. -/
structure Regs where
  eax : Int
  ebx : Int
  ecx : Int
  edx : Int
deriving Repr, DecidableEq

/-- The flag dictionary `{'z': .., 's': ..}`; the source stores the
Python ints 0 and 1 in it. -/
structure Flags where
  z : Int
  s : Int
deriving Repr, DecidableEq

/-- Structured rendering of the `error_msg` strings the emulator can
produce: the f-string built at parse time carries the 1-based index of
the offending line and the offending (lowercased) opcode token, the
auto-run driver stores a fixed limit message, and the except clause of
`execute_step` stores an execution-failure message (its payload, the
text of the caught exception, is not modelled). -/
inductive ErrMsg where
  | unknownOpcode (line : Nat) (tok : String)
  | limitExceeded
  | execFailure
deriving Repr, DecidableEq

/-- The mutable state of the `Emulator` object. -/
structure EmuState where
  registers : Regs
  flags : Flags
  pc : Int
  ir : Option Instruction
  memory : List (Int × Int)
  program : List Instruction
  executed_count : Nat
  running : Bool
  error_msg : Option ErrMsg
deriving Repr, DecidableEq

/-- The state produced by `Emulator.reset()`. -/
def initState : EmuState :=
  { registers := ⟨0, 0, 0, 0⟩
    flags := ⟨0, 0⟩
    pc := 0
    ir := none
    memory := []
    program := []
    executed_count := 0
    running := false
    error_msg := none }

/-! ## Data memory -/

/-- Python dict assignment `m[k] = v` on an association list with unique
keys: update in place, or append a fresh key. -/
def dictSet (m : List (Int × Int)) (k v : Int) : List (Int × Int) :=
  match m with
  | [] => [(k, v)]
  | p :: rest => if p.1 = k then (k, v) :: rest else p :: dictSet rest k v

/-- Python `m.get(k, 0)`. -/
def dictGet (m : List (Int × Int)) (k : Int) : Int :=
  match m with
  | [] => 0
  | p :: rest => if p.1 = k then p.2 else dictGet rest k

/-- Emulator method `set_memory`: writes only inside `[0, 4096)`,
silently dropping everything else. -/
def set_memory (s : EmuState) (addr value : Int) : EmuState :=
  if 0 ≤ addr ∧ addr < 4096 then { s with memory := dictSet s.memory addr value }
  else s

/-- Emulator method `get_memory`: `self.memory.get(addr, 0)`, with no
bounds check of its own. -/
def get_memory (s : EmuState) (addr : Int) : Int := dictGet s.memory addr

/-- Invariant of the sparse memory dictionary: every key present is a
legal address. -/
def MemInv (m : List (Int × Int)) : Prop := ∀ p ∈ m, 0 ≤ p.1 ∧ p.1 < 4096

instance (m : List (Int × Int)) : Decidable (MemInv m) := by
  unfold MemInv; infer_instance

/-! ## Addressing resolver -/

/-- The keys of `REG_MAP`. -/
def REG_NAMES : List String := ["eax", "ebx", "ecx", "edx"]

/-- Dictionary read `self.registers[name]` (callers guard membership in
`REG_MAP`, so the fallback is unreachable). -/
def getRegNamed (r : Regs) (name : String) : Int :=
  if name = "eax" then r.eax
  else if name = "ebx" then r.ebx
  else if name = "ecx" then r.ecx
  else if name = "edx" then r.edx
  else 0

/-- Dictionary write `self.registers[name] = v` (same guard as reads). -/
def setRegNamed (r : Regs) (name : String) (v : Int) : Regs :=
  if name = "eax" then { r with eax := v }
  else if name = "ebx" then { r with ebx := v }
  else if name = "ecx" then { r with ecx := v }
  else if name = "edx" then { r with edx := v }
  else r

/-- Bracket test `operand.startswith('[') and operand.endswith(']')`. -/
def isBracketed (op : String) : Bool :=
  op.data.head? = some '[' ∧ op.data.getLast? = some ']'

/-- Python slice `operand[1:-1]`. -/
def innerStr (op : String) : String := ⟨(op.data.drop 1).dropLast⟩

/-- Emulator method `get_value`: resolve an operand token and read it. -/
def get_value (s : EmuState) (operand : String) : Int :=
  let op := pystrip operand
  if isBracketed op then
    let inner := pystrip (innerStr op)
    if inner ∈ REG_NAMES then get_memory s (getRegNamed s.registers inner)
    else
      match pyint inner with
      | some addr => get_memory s addr
      | none => 0
  else if op ∈ REG_NAMES then getRegNamed s.registers op
  else
    match pyint op with
    | some n => n
    | none => 0

/-- Emulator method `set_value`: resolve an operand token and write
through it.  The source runs the bracket block and then, unconditionally,
the register check; both are reproduced in sequence. -/
def set_value (s : EmuState) (operand : String) (value : Int) : EmuState :=
  let op := pystrip operand
  let s1 :=
    if isBracketed op then
      let inner := pystrip (innerStr op)
      if inner ∈ REG_NAMES then set_memory s (getRegNamed s.registers inner) value
      else
        match pyint inner with
        | some addr => set_memory s addr value
        | none => s
    else s
  if op ∈ REG_NAMES then { s1 with registers := setRegNamed s1.registers op value }
  else s1

/-- Emulator method `decode_operand`: addressing-mode classifier.
The numeric codes are the `ADDRESSING_MODES` values:
0 = reg, 1 = imm, 2 = ind, 3 = dir. -/
def decode_operand (operand : String) : Nat × String :=
  let op := pystrip operand
  if isBracketed op then
    let inner := pystrip (innerStr op)
    if inner ∈ REG_NAMES then (2, inner) else (3, inner)
  else if op ∈ REG_NAMES then (0, op)
  else
    match pyint op with
    | some _ => (1, op)
    | none => (1, "0")

/-! ## Flags and the executor -/

/-- Flag values derived from an arithmetic result, exactly as
`update_flags` stores them: 1 for true, 0 for false. -/
def mkFlags (result : Int) : Flags :=
  ⟨if result = 0 then 1 else 0, if result < 0 then 1 else 0⟩

/-- Emulator method `update_flags`. -/
def update_flags (s : EmuState) (result : Int) : EmuState :=
  { s with flags := mkFlags result }

/-- Python list read `l[i]`: non-negative indices are plain positions,
indices in `[-len, 0)` wrap from the end, anything lower raises
`IndexError` (modelled as `none`). -/
def pyListGet (l : List Instruction) (i : Int) : Option Instruction :=
  if 0 ≤ i then l.get? i.toNat
  else if -i ≤ (l.length : Int) then l.get? (l.length - (-i).toNat)
  else none

/-- Store the fetched instruction in the instruction register. -/
def setIr (s : EmuState) (inst : Instruction) : EmuState := { s with ir := some inst }

/-- Branch selector for the dispatch chain of `execute_step`: one tag
per `elif` arm, plus `unknown` for the silent fall-through when no arm
matches. -/
inductive OpTag where
  | mov | add | sub | mul | div | land | lor | lxor | lnot | inc | cmp
  | jmp | jz | jnz | js | jns | unknown
deriving Repr, DecidableEq

/-- Which arm of the `if/elif` chain a stored opcode string selects,
comparisons in source order. -/
def opTagOf : String → OpTag
  | "mov" => .mov
  | "add" => .add
  | "sub" => .sub
  | "mul" => .mul
  | "div" => .div
  | "and" => .land
  | "or" => .lor
  | "xor" => .lxor
  | "not" => .lnot
  | "inc" => .inc
  | "cmp" => .cmp
  | "jmp" => .jmp
  | "jz" => .jz
  | "jnz" => .jnz
  | "js" => .js
  | "jns" => .jns
  | _ => .unknown

/-- CPython raises OverflowError ("integer division result too large
for a float") in int true division with a nonzero divisor exactly when
the correctly rounded quotient leaves the double range: when the exact
magnitude of a/b is at least 2^1024 - 2^970, half an ulp above the
largest finite double, where round-half-even carries to infinity. -/
def divOverflow (a b : Int) : Prop :=
  (2 ^ 1024 - 2 ^ 970) * b.natAbs ≤ a.natAbs

instance (a b : Int) : Decidable (divOverflow a b) := by
  unfold divOverflow; infer_instance

/-- The opcode dispatch of `execute_step`: the body of the
`if/elif` chain, before the final `pc`/`executed_count` increments.
The local Python variables opcode/op1/op2 are inlined as the
corresponding instruction fields, and the pure expression `res` is
inlined at both of its use sites.  The result is `none` when the
dispatch raises: the only reachable exception in the source is the
OverflowError of the float-based division `int(a / b)`, modelled by
`divOverflow`; a non-overflowing division is modelled as exact
truncation toward zero, whose rounding divergence from the float path
is recorded with the division claim. -/
def execInst (s : EmuState) (inst : Instruction) : Option EmuState :=
  match opTagOf inst.opcode with
  | .mov => some (set_value s inst.operand1 (get_value s inst.operand2))
  | .add =>
    some (update_flags
      (set_value s inst.operand1 (get_value s inst.operand1 + get_value s inst.operand2))
      (get_value s inst.operand1 + get_value s inst.operand2))
  | .sub =>
    some (update_flags
      (set_value s inst.operand1 (get_value s inst.operand1 - get_value s inst.operand2))
      (get_value s inst.operand1 - get_value s inst.operand2))
  | .mul => some (set_value s inst.operand1 (get_value s inst.operand1 * get_value s inst.operand2))
  | .div =>
    if get_value s inst.operand2 ≠ 0 then
      if divOverflow (get_value s inst.operand1) (get_value s inst.operand2) then none
      else
        some (set_value s inst.operand1
          (Int.tdiv (get_value s inst.operand1) (get_value s inst.operand2)))
    else some s
  | .land =>
    some (set_value s inst.operand1 (Int.land (get_value s inst.operand1) (get_value s inst.operand2)))
  | .lor =>
    some (set_value s inst.operand1 (Int.lor (get_value s inst.operand1) (get_value s inst.operand2)))
  | .lxor =>
    some (set_value s inst.operand1 (Int.xor (get_value s inst.operand1) (get_value s inst.operand2)))
  | .lnot => some (set_value s inst.operand1 (Int.lnot (get_value s inst.operand1)))
  | .inc => some (set_value s inst.operand1 (get_value s inst.operand1 + 1))
  | .cmp => some (update_flags s (get_value s inst.operand1 - get_value s inst.operand2))
  | .jmp => some { s with pc := get_value s inst.operand1 - 1 }
  | .jz => if s.flags.z = 1 then some { s with pc := get_value s inst.operand1 - 1 } else some s
  | .jnz => if s.flags.z = 0 then some { s with pc := get_value s inst.operand1 - 1 } else some s
  | .js => if s.flags.s = 1 then some { s with pc := get_value s inst.operand1 - 1 } else some s
  | .jns => if s.flags.s = 0 then some { s with pc := get_value s inst.operand1 - 1 } else some s
  | .unknown => some s

/-- The only exception the try block of `execute_step` can raise in
the source: a div instruction whose divisor reads nonzero and whose
float quotient overflows. -/
def divErrStep (s : EmuState) (inst : Instruction) : Prop :=
  opTagOf inst.opcode = .div ∧ get_value s inst.operand2 ≠ 0 ∧
    divOverflow (get_value s inst.operand1) (get_value s inst.operand2)

instance (s : EmuState) (inst : Instruction) : Decidable (divErrStep s inst) := by
  unfold divErrStep; infer_instance

/-- Emulator method `execute_step`.  Returns the updated state and the
boolean result of the method; the outer `none` is the uncaught
`IndexError` a fetch at an index below `-len(program)` raises (the
fetch sits outside the `try` block in the source).  A dispatch that
raises inside the `try` block is caught by the except clause, which
records the failure, sets running to false and returns False without
incrementing `pc` or `executed_count` (the instruction register was
already written before the `try`). -/
def execute_step (s : EmuState) : Option (EmuState × Bool) :=
  if s.running = false ∨ (s.program.length : Int) ≤ s.pc then
    some ({ s with running := false }, false)
  else
    match pyListGet s.program s.pc with
    | none => none
    | some inst =>
      match execInst (setIr s inst) inst with
      | none =>
        some ({ setIr s inst with error_msg := some .execFailure, running := false }, false)
      | some s1 =>
        some ({ s1 with pc := s1.pc + 1, executed_count := s1.executed_count + 1 }, true)

/-! ## Parser -/

/-- The 16 recognized mnemonics (keys of `OPCODES`). -/
def OPCODES : List String :=
  ["mov", "add", "sub", "mul", "div", "jmp", "jz", "jnz",
   "js", "jns", "and", "or", "xor", "not", "cmp", "inc"]

/-- The instruction a retained source line parses to. -/
def lineToInst (line : String) : Instruction :=
  let parts := pysplitWs line
  ⟨toLowerStr (parts.headD ""), parts.getD 1 "", parts.getD 2 "", line⟩

/-- The lowercased opcode token of a line, when it has any token. -/
def lineOpcode (line : String) : Option String :=
  (pysplitWs line).head?.map toLowerStr

/-- The parse loop of `parse_program`: walks the retained lines with
their enumeration index, accumulating `self.program`.  On an unknown
opcode it stops, returning the program built so far (which stays in
`self.program` in the source) and the error. -/
def parseLoop : List String → Nat → List Instruction → List Instruction × Option ErrMsg
  | [], _, acc => (acc, none)
  | line :: rest, i, acc =>
    match pysplitWs line with
    | [] => parseLoop rest (i + 1) acc
    | p0 :: _ =>
      let opc := toLowerStr p0
      if opc ∈ OPCODES then parseLoop rest (i + 1) (acc ++ [lineToInst line])
      else (acc, some (.unknownOpcode (i + 1) opc))

/-- The lines `parse_program` keeps: split on newlines, strip each, drop
empties and comment lines starting with a semicolon. -/
def retainedLines (code : String) : List String :=
  ((splitNl code).map pystrip).filter
    (fun l => l ≠ "" ∧ l.data.head? ≠ some ';')

/-- Emulator method `parse_program`: resets the state, parses the
retained lines, and either installs the program with `running = true`
or records the parse error (keeping the parsed prefix in `program`,
as the source does). -/
def parse_program (code : String) : EmuState × Bool :=
  let r := parseLoop (retainedLines code) 0 []
  match r.2 with
  | some e => ({ initState with program := r.1, error_msg := some e }, false)
  | none => ({ initState with program := r.1, running := true }, true)

/-! ## Auto-run driver -/

/-- The `while` loop of `run_auto`: runs `execute_step` while
`running and pc < len(program)` and fuel (the remaining allowed steps)
lasts, returning the final state and the number of iterations.  A
`none` is an exception propagating out of a step. -/
def runAutoLoop (s : EmuState) : Nat → Option (EmuState × Nat)
  | 0 => some (s, 0)
  | fuel + 1 =>
    if s.running = true ∧ s.pc < (s.program.length : Int) then
      match execute_step s with
      | none => none
      | some (s1, _) =>
        match runAutoLoop s1 fuel with
        | none => none
        | some (s2, n) => some (s2, n + 1)
    else some (s, 0)

/-- Emulator method `run_auto`: after the loop, `steps >= max_steps`
records the limit error and returns failure; otherwise success. -/
def run_auto (s : EmuState) (maxSteps : Nat) : Option (EmuState × Bool) :=
  match runAutoLoop s maxSteps with
  | none => none
  | some (s1, n) =>
    if maxSteps ≤ n then some ({ s1 with error_msg := some .limitExceeded }, false)
    else some (s1, true)

/-- Calling `execute_step` N times in a row, as the step button does. -/
def stepN : Nat → EmuState → Option EmuState
  | 0, s => some s
  | n + 1, s =>
    match execute_step s with
    | none => none
    | some (s1, _) => stepN n s1

/-- The jump-taken condition of the dispatch: `jmp` always, the four
conditional jumps exactly when their flag comparison in the source
succeeds. -/
def takenJump (s : EmuState) (inst : Instruction) : Prop :=
  inst.opcode = "jmp" ∨
  (inst.opcode = "jz" ∧ s.flags.z = 1) ∨
  (inst.opcode = "jnz" ∧ s.flags.z = 0) ∨
  (inst.opcode = "js" ∧ s.flags.s = 1) ∨
  (inst.opcode = "jns" ∧ s.flags.s = 0)

instance (s : EmuState) (inst : Instruction) : Decidable (takenJump s inst) := by
  unfold takenJump; infer_instance

set_option maxRecDepth 1000000
set_option maxHeartbeats 1000000

/-! ## Frame lemmas: what each operation leaves untouched -/

@[simp] lemma set_memory_registers (s : EmuState) (a v : Int) :
    (set_memory s a v).registers = s.registers := by
  unfold set_memory; split <;> rfl

@[simp] lemma set_memory_flags (s : EmuState) (a v : Int) :
    (set_memory s a v).flags = s.flags := by
  unfold set_memory; split <;> rfl

@[simp] lemma set_memory_pc (s : EmuState) (a v : Int) :
    (set_memory s a v).pc = s.pc := by
  unfold set_memory; split <;> rfl

@[simp] lemma set_memory_ir (s : EmuState) (a v : Int) :
    (set_memory s a v).ir = s.ir := by
  unfold set_memory; split <;> rfl

@[simp] lemma set_memory_program (s : EmuState) (a v : Int) :
    (set_memory s a v).program = s.program := by
  unfold set_memory; split <;> rfl

@[simp] lemma set_memory_executed (s : EmuState) (a v : Int) :
    (set_memory s a v).executed_count = s.executed_count := by
  unfold set_memory; split <;> rfl

@[simp] lemma set_memory_running (s : EmuState) (a v : Int) :
    (set_memory s a v).running = s.running := by
  unfold set_memory; split <;> rfl

@[simp] lemma set_memory_error (s : EmuState) (a v : Int) :
    (set_memory s a v).error_msg = s.error_msg := by
  unfold set_memory; split <;> rfl

@[simp] lemma set_value_flags (s : EmuState) (op : String) (v : Int) :
    (set_value s op v).flags = s.flags := by
  unfold set_value set_memory; dsimp only
  repeat' split
  all_goals rfl

@[simp] lemma set_value_pc (s : EmuState) (op : String) (v : Int) :
    (set_value s op v).pc = s.pc := by
  unfold set_value set_memory; dsimp only
  repeat' split
  all_goals rfl

@[simp] lemma set_value_ir (s : EmuState) (op : String) (v : Int) :
    (set_value s op v).ir = s.ir := by
  unfold set_value set_memory; dsimp only
  repeat' split
  all_goals rfl

@[simp] lemma set_value_program (s : EmuState) (op : String) (v : Int) :
    (set_value s op v).program = s.program := by
  unfold set_value set_memory; dsimp only
  repeat' split
  all_goals rfl

@[simp] lemma set_value_executed (s : EmuState) (op : String) (v : Int) :
    (set_value s op v).executed_count = s.executed_count := by
  unfold set_value set_memory; dsimp only
  repeat' split
  all_goals rfl

@[simp] lemma set_value_running (s : EmuState) (op : String) (v : Int) :
    (set_value s op v).running = s.running := by
  unfold set_value set_memory; dsimp only
  repeat' split
  all_goals rfl

@[simp] lemma set_value_error (s : EmuState) (op : String) (v : Int) :
    (set_value s op v).error_msg = s.error_msg := by
  unfold set_value set_memory; dsimp only
  repeat' split
  all_goals rfl

@[simp] lemma update_flags_registers (s : EmuState) (r : Int) :
    (update_flags s r).registers = s.registers := rfl

@[simp] lemma update_flags_flags (s : EmuState) (r : Int) :
    (update_flags s r).flags = mkFlags r := rfl

@[simp] lemma update_flags_pc (s : EmuState) (r : Int) :
    (update_flags s r).pc = s.pc := rfl

@[simp] lemma update_flags_ir (s : EmuState) (r : Int) :
    (update_flags s r).ir = s.ir := rfl

@[simp] lemma update_flags_memory (s : EmuState) (r : Int) :
    (update_flags s r).memory = s.memory := rfl

@[simp] lemma update_flags_program (s : EmuState) (r : Int) :
    (update_flags s r).program = s.program := rfl

@[simp] lemma update_flags_executed (s : EmuState) (r : Int) :
    (update_flags s r).executed_count = s.executed_count := rfl

@[simp] lemma update_flags_running (s : EmuState) (r : Int) :
    (update_flags s r).running = s.running := rfl

@[simp] lemma setIr_registers (s : EmuState) (i : Instruction) :
    (setIr s i).registers = s.registers := rfl

@[simp] lemma setIr_flags (s : EmuState) (i : Instruction) :
    (setIr s i).flags = s.flags := rfl

@[simp] lemma setIr_pc (s : EmuState) (i : Instruction) :
    (setIr s i).pc = s.pc := rfl

@[simp] lemma setIr_memory (s : EmuState) (i : Instruction) :
    (setIr s i).memory = s.memory := rfl

@[simp] lemma setIr_program (s : EmuState) (i : Instruction) :
    (setIr s i).program = s.program := rfl

@[simp] lemma setIr_executed (s : EmuState) (i : Instruction) :
    (setIr s i).executed_count = s.executed_count := rfl

@[simp] lemma get_value_setIr (s : EmuState) (i : Instruction) (op : String) :
    get_value (setIr s i) op = get_value s op := rfl

@[simp] lemma takenJump_setIr (s : EmuState) (i j : Instruction) :
    takenJump (setIr s i) j = takenJump s j := rfl

/-! ## Master lemmas about the dispatch -/

/-- A string whose tag is t cannot be a string computing to a different
tag. -/
lemma opcode_ne_of_tag {o : String} {t : OpTag} (htag : opTagOf o = t)
    {o2 : String} (hne : opTagOf o2 ≠ t) : o ≠ o2 :=
  fun h => hne (h ▸ htag)

/-- The jmp arm is selected exactly by the string "jmp". -/
lemma opTag_jmp_str {o : String} (h : opTagOf o = .jmp) : o = "jmp" := by
  unfold opTagOf at h
  split at h
  all_goals simp_all

/-- The jz arm is selected exactly by the string "jz". -/
lemma opTag_jz_str {o : String} (h : opTagOf o = .jz) : o = "jz" := by
  unfold opTagOf at h
  split at h
  all_goals simp_all

/-- The jnz arm is selected exactly by the string "jnz". -/
lemma opTag_jnz_str {o : String} (h : opTagOf o = .jnz) : o = "jnz" := by
  unfold opTagOf at h
  split at h
  all_goals simp_all

/-- The js arm is selected exactly by the string "js". -/
lemma opTag_js_str {o : String} (h : opTagOf o = .js) : o = "js" := by
  unfold opTagOf at h
  split at h
  all_goals simp_all

/-- The jns arm is selected exactly by the string "jns". -/
lemma opTag_jns_str {o : String} (h : opTagOf o = .jns) : o = "jns" := by
  unfold opTagOf at h
  split at h
  all_goals simp_all

/-- The add arm is selected exactly by the string "add". -/
lemma opTag_add_str {o : String} (h : opTagOf o = .add) : o = "add" := by
  unfold opTagOf at h
  split at h
  all_goals simp_all

/-- The sub arm is selected exactly by the string "sub". -/
lemma opTag_sub_str {o : String} (h : opTagOf o = .sub) : o = "sub" := by
  unfold opTagOf at h
  split at h
  all_goals simp_all

/-- The cmp arm is selected exactly by the string "cmp". -/
lemma opTag_cmp_str {o : String} (h : opTagOf o = .cmp) : o = "cmp" := by
  unfold opTagOf at h
  split at h
  all_goals simp_all

/-- The five dispatch arms that can redirect the program counter. -/
def isJumpTag : OpTag → Bool
  | .jmp | .jz | .jnz | .js | .jns => true
  | _ => false

/-- An instruction whose dispatch arm is not a jump arm never takes a
jump. -/
lemma notTaken_tag {s : EmuState} {i : Instruction} {t : OpTag}
    (htag : opTagOf i.opcode = t) (hnj : isJumpTag t = false) :
    ¬ takenJump s i := by
  intro hTJ
  rcases hTJ with h | ⟨h, _⟩ | ⟨h, _⟩ | ⟨h, _⟩ | ⟨h, _⟩ <;>
    (rw [h] at htag; subst htag; exact absurd hnj (by decide))

/-- A jz with the zero flag away from 1 is not taken. -/
lemma notTaken_jz {s : EmuState} {i : Instruction}
    (hop : i.opcode = "jz") (hz : ¬ s.flags.z = 1) : ¬ takenJump s i := by
  intro hTJ
  rcases hTJ with h | ⟨_, h2⟩ | ⟨h, _⟩ | ⟨h, _⟩ | ⟨h, _⟩
  · rw [hop] at h; exact absurd h (by decide)
  · exact hz h2
  · rw [hop] at h; exact absurd h (by decide)
  · rw [hop] at h; exact absurd h (by decide)
  · rw [hop] at h; exact absurd h (by decide)

/-- A jnz with the zero flag away from 0 is not taken. -/
lemma notTaken_jnz {s : EmuState} {i : Instruction}
    (hop : i.opcode = "jnz") (hz : ¬ s.flags.z = 0) : ¬ takenJump s i := by
  intro hTJ
  rcases hTJ with h | ⟨h, _⟩ | ⟨_, h2⟩ | ⟨h, _⟩ | ⟨h, _⟩
  · rw [hop] at h; exact absurd h (by decide)
  · rw [hop] at h; exact absurd h (by decide)
  · exact hz h2
  · rw [hop] at h; exact absurd h (by decide)
  · rw [hop] at h; exact absurd h (by decide)

/-- A js with the sign flag away from 1 is not taken. -/
lemma notTaken_js {s : EmuState} {i : Instruction}
    (hop : i.opcode = "js") (hz : ¬ s.flags.s = 1) : ¬ takenJump s i := by
  intro hTJ
  rcases hTJ with h | ⟨h, _⟩ | ⟨h, _⟩ | ⟨_, h2⟩ | ⟨h, _⟩
  · rw [hop] at h; exact absurd h (by decide)
  · rw [hop] at h; exact absurd h (by decide)
  · rw [hop] at h; exact absurd h (by decide)
  · exact hz h2
  · rw [hop] at h; exact absurd h (by decide)

/-- A jns with the sign flag away from 0 is not taken. -/
lemma notTaken_jns {s : EmuState} {i : Instruction}
    (hop : i.opcode = "jns") (hz : ¬ s.flags.s = 0) : ¬ takenJump s i := by
  intro hTJ
  rcases hTJ with h | ⟨h, _⟩ | ⟨h, _⟩ | ⟨h, _⟩ | ⟨_, h2⟩
  · rw [hop] at h; exact absurd h (by decide)
  · rw [hop] at h; exact absurd h (by decide)
  · rw [hop] at h; exact absurd h (by decide)
  · rw [hop] at h; exact absurd h (by decide)
  · exact hz h2

@[simp] lemma divErrStep_setIr (s : EmuState) (i j : Instruction) :
    divErrStep (setIr s i) j = divErrStep s j := rfl

lemma execInst_executed {s : EmuState} {i : Instruction} {s1 : EmuState}
    (h : execInst s i = some s1) : s1.executed_count = s.executed_count := by
  cases htag : opTagOf i.opcode <;> simp only [execInst, htag] at h
  all_goals (repeat' split at h)
  all_goals (try (exact Option.noConfusion h))
  all_goals (injection h with h)
  all_goals (subst h; simp)

lemma execInst_running {s : EmuState} {i : Instruction} {s1 : EmuState}
    (h : execInst s i = some s1) : s1.running = s.running := by
  cases htag : opTagOf i.opcode <;> simp only [execInst, htag] at h
  all_goals (repeat' split at h)
  all_goals (try (exact Option.noConfusion h))
  all_goals (injection h with h)
  all_goals (subst h; simp)

lemma execInst_program {s : EmuState} {i : Instruction} {s1 : EmuState}
    (h : execInst s i = some s1) : s1.program = s.program := by
  cases htag : opTagOf i.opcode <;> simp only [execInst, htag] at h
  all_goals (repeat' split at h)
  all_goals (try (exact Option.noConfusion h))
  all_goals (injection h with h)
  all_goals (subst h; simp)

lemma execInst_ir {s : EmuState} {i : Instruction} {s1 : EmuState}
    (h : execInst s i = some s1) : s1.ir = s.ir := by
  cases htag : opTagOf i.opcode <;> simp only [execInst, htag] at h
  all_goals (repeat' split at h)
  all_goals (try (exact Option.noConfusion h))
  all_goals (injection h with h)
  all_goals (subst h; simp)

/-- The program counter after a successful dispatch (before the
unconditional increment): redirected to `target - 1` by a taken jump,
untouched otherwise. -/
lemma execInst_pc {s : EmuState} {i : Instruction} {s1 : EmuState}
    (h : execInst s i = some s1) :
    s1.pc = if takenJump s i then get_value s i.operand1 - 1 else s.pc := by
  cases htag : opTagOf i.opcode <;> simp only [execInst, htag] at h
  case jmp =>
    injection h with h
    subst h
    rw [if_pos (show takenJump s i from Or.inl (opTag_jmp_str htag))]
  case jz =>
    have hop := opTag_jz_str htag
    by_cases hz : s.flags.z = 1
    · rw [if_pos hz] at h
      injection h with h
      subst h
      rw [if_pos (show takenJump s i from Or.inr (Or.inl ⟨hop, hz⟩))]
    · rw [if_neg hz] at h
      injection h with h
      subst h
      rw [if_neg (notTaken_jz hop hz)]
  case jnz =>
    have hop := opTag_jnz_str htag
    by_cases hz : s.flags.z = 0
    · rw [if_pos hz] at h
      injection h with h
      subst h
      rw [if_pos (show takenJump s i from Or.inr (Or.inr (Or.inl ⟨hop, hz⟩)))]
    · rw [if_neg hz] at h
      injection h with h
      subst h
      rw [if_neg (notTaken_jnz hop hz)]
  case js =>
    have hop := opTag_js_str htag
    by_cases hz : s.flags.s = 1
    · rw [if_pos hz] at h
      injection h with h
      subst h
      rw [if_pos (show takenJump s i from Or.inr (Or.inr (Or.inr (Or.inl ⟨hop, hz⟩))))]
    · rw [if_neg hz] at h
      injection h with h
      subst h
      rw [if_neg (notTaken_js hop hz)]
  case jns =>
    have hop := opTag_jns_str htag
    by_cases hz : s.flags.s = 0
    · rw [if_pos hz] at h
      injection h with h
      subst h
      rw [if_pos (show takenJump s i from Or.inr (Or.inr (Or.inr (Or.inr ⟨hop, hz⟩))))]
    · rw [if_neg hz] at h
      injection h with h
      subst h
      rw [if_neg (notTaken_jns hop hz)]
  all_goals rw [if_neg (notTaken_tag htag (by decide))]
  all_goals (repeat' split at h)
  all_goals (try (exact Option.noConfusion h))
  all_goals (injection h with h)
  all_goals (subst h; simp)

/-- The flags after a successful dispatch: set from the arithmetic
result by add, sub and cmp, untouched by every other opcode. -/
lemma execInst_flags {s : EmuState} {i : Instruction} {s1 : EmuState}
    (h : execInst s i = some s1) :
    s1.flags =
      if i.opcode = "add" then mkFlags (get_value s i.operand1 + get_value s i.operand2)
      else if i.opcode = "sub" then mkFlags (get_value s i.operand1 - get_value s i.operand2)
      else if i.opcode = "cmp" then mkFlags (get_value s i.operand1 - get_value s i.operand2)
      else s.flags := by
  cases htag : opTagOf i.opcode <;> simp only [execInst, htag] at h
  case add =>
    injection h with h
    subst h
    rw [if_pos (opTag_add_str htag)]
    simp
  case sub =>
    have hop := opTag_sub_str htag
    injection h with h
    subst h
    rw [if_neg (by rw [hop]; decide), if_pos hop]
    simp
  case cmp =>
    have hop := opTag_cmp_str htag
    injection h with h
    subst h
    rw [if_neg (by rw [hop]; decide), if_neg (by rw [hop]; decide), if_pos hop]
    simp
  all_goals
    rw [if_neg (opcode_ne_of_tag htag (by decide)),
        if_neg (opcode_ne_of_tag htag (by decide)),
        if_neg (opcode_ne_of_tag htag (by decide))]
  all_goals (repeat' split at h)
  all_goals (try (exact Option.noConfusion h))
  all_goals (injection h with h)
  all_goals (subst h; simp)

/-- The dispatch succeeds on every instruction that does not satisfy
the div-overflow error condition. -/
lemma execInst_total {s : EmuState} {i : Instruction}
    (hne : ¬ divErrStep s i) : ∃ s1, execInst s i = some s1 := by
  cases htag : opTagOf i.opcode <;> simp only [execInst, htag]
  case div =>
    by_cases hz : get_value s i.operand2 ≠ 0
    · rw [if_pos hz]
      by_cases hov : divOverflow (get_value s i.operand1) (get_value s i.operand2)
      · exact absurd ⟨htag, hz, hov⟩ hne
      · rw [if_neg hov]
        exact ⟨_, rfl⟩
    · rw [if_neg hz]
      exact ⟨_, rfl⟩
  all_goals (repeat' split)
  all_goals exact ⟨_, rfl⟩

/-- The dispatch raises on the div-overflow error condition. -/
lemma execInst_err_of {s : EmuState} {i : Instruction}
    (hd : divErrStep s i) : execInst s i = none := by
  obtain ⟨htag, hz, hov⟩ := hd
  simp only [execInst, htag]
  rw [if_pos hz, if_pos hov]

/-! ## Fetch and step reduction -/

/-- Python indexing succeeds exactly on indices in `[-len, len)`. -/
lemma pyListGet_total (l : List Instruction) (i : Int)
    (hlow : -(l.length : Int) ≤ i) (hhigh : i < (l.length : Int)) :
    ∃ inst, pyListGet l i = some inst := by
  unfold pyListGet
  split_ifs with h0 hneg
  · have h : i.toNat < l.length := by omega
    exact ⟨_, List.get?_eq_get h⟩
  · have h : l.length - (-i).toNat < l.length := by omega
    exact ⟨_, List.get?_eq_get h⟩
  · omega

/-- Reduction of `execute_step` on a state that is running with a
fetchable instruction whose dispatch succeeds. -/
lemma execute_step_run (s : EmuState) (inst : Instruction) {E : EmuState}
    (hrun : s.running = true) (hhigh : s.pc < (s.program.length : Int))
    (hfetch : pyListGet s.program s.pc = some inst)
    (hexec : execInst (setIr s inst) inst = some E) :
    execute_step s =
      some ({ E with pc := E.pc + 1, executed_count := E.executed_count + 1 }, true) := by
  unfold execute_step
  rw [if_neg, hfetch]
  · dsimp only
    rw [hexec]
  · intro h
    rcases h with h | h
    · rw [hrun] at h; exact Bool.noConfusion h
    · omega

/-- Reduction of `execute_step` on a state whose fetched instruction
makes the dispatch raise: the except clause records the failure and
stops the machine without touching pc or the counter. -/
lemma execute_step_err (s : EmuState) (inst : Instruction)
    (hrun : s.running = true) (hhigh : s.pc < (s.program.length : Int))
    (hfetch : pyListGet s.program s.pc = some inst)
    (hexec : execInst (setIr s inst) inst = none) :
    execute_step s =
      some ({ setIr s inst with error_msg := some .execFailure, running := false }, false) := by
  unfold execute_step
  rw [if_neg, hfetch]
  · dsimp only
    rw [hexec]
  · intro h
    rcases h with h | h
    · rw [hrun] at h; exact Bool.noConfusion h
    · omega

/-! ## Memory lemmas -/

/-- Writing an in-range key keeps every key of the dictionary in range. -/
lemma dictSet_meminv (k v : Int) (h0 : 0 ≤ k) (h4 : k < 4096) :
    ∀ m, MemInv m → MemInv (dictSet m k v) := by
  intro m
  induction m with
  | nil =>
    intro _ p hp
    simp [dictSet] at hp
    subst hp
    exact ⟨h0, h4⟩
  | cons q rest ih =>
    intro hm
    simp only [dictSet]
    split
    · intro p hp
      rcases List.mem_cons.mp hp with hp | hp
      · subst hp; exact ⟨h0, h4⟩
      · exact hm p (List.mem_cons_of_mem q hp)
    · intro p hp
      rcases List.mem_cons.mp hp with hp | hp
      · subst hp; exact hm _ (List.mem_cons_self _ rest)
      · exact ih (fun r hr => hm r (List.mem_cons_of_mem q hr)) p hp

/-- Updating a key and reading it back gives the written value. -/
lemma dictGet_dictSet_self (k v : Int) :
    ∀ m, dictGet (dictSet m k v) k = v := by
  intro m
  induction m with
  | nil => simp [dictSet, dictGet]
  | cons q rest ih =>
    simp only [dictSet]
    split
    · simp [dictGet]
    · simp only [dictGet]
      split
      · simp_all
      · exact ih

/-- A dictionary whose keys are all in range reads 0 at any key out of
range. -/
lemma dictGet_out_of_range {k : Int} (hk : k < 0 ∨ 4096 ≤ k) :
    ∀ m, MemInv m → dictGet m k = 0 := by
  intro m
  induction m with
  | nil => intro _; rfl
  | cons q rest ih =>
    intro hm
    simp only [dictGet]
    split
    · rcases hm q (List.mem_cons_self q rest) with ⟨h0, h4⟩
      rename_i hq
      omega
    · exact ih (fun r hr => hm r (List.mem_cons_of_mem q hr))

/-- `set_memory` preserves the memory invariant. -/
lemma set_memory_meminv {s : EmuState} (hm : MemInv s.memory) (a v : Int) :
    MemInv (set_memory s a v).memory := by
  unfold set_memory
  split
  · next h => exact dictSet_meminv a v h.1 h.2 s.memory hm
  · exact hm

/-- `set_value` preserves the memory invariant: its only memory writes
go through `set_memory`. -/
lemma set_value_meminv {s : EmuState} (hm : MemInv s.memory)
    (op : String) (v : Int) : MemInv (set_value s op v).memory := by
  unfold set_value
  dsimp only
  repeat' split
  all_goals
    first
    | exact hm
    | exact set_memory_meminv hm _ _

/-- A successful dispatch preserves the memory invariant. -/
lemma execInst_meminv {s : EmuState} {i : Instruction} {s1 : EmuState}
    (h : execInst s i = some s1) (hm : MemInv s.memory) :
    MemInv s1.memory := by
  cases htag : opTagOf i.opcode <;> simp only [execInst, htag] at h
  all_goals (repeat' split at h)
  all_goals (try (exact Option.noConfusion h))
  all_goals (injection h with h)
  all_goals (subst h)
  all_goals
    first
    | exact set_value_meminv hm _ _
    | exact hm

/-- A step that returns preserves the memory invariant (both the
execute and the caught-exception outcome touch no memory beyond the
dispatch itself). -/
lemma execute_step_meminv {s s1 : EmuState} {b : Bool}
    (hstep : execute_step s = some (s1, b)) (hm : MemInv s.memory) :
    MemInv s1.memory := by
  unfold execute_step at hstep
  split at hstep
  · injection hstep with h
    injection h with h1 h2
    subst h1
    exact hm
  · cases hfetch : pyListGet s.program s.pc with
    | none => rw [hfetch] at hstep; exact absurd hstep (by simp)
    | some inst =>
      rw [hfetch] at hstep
      dsimp only at hstep
      cases hexec : execInst (setIr s inst) inst with
      | none =>
        rw [hexec] at hstep
        dsimp only at hstep
        injection hstep with h
        injection h with h1 h2
        subst h1
        exact hm
      | some E =>
        rw [hexec] at hstep
        dsimp only at hstep
        injection hstep with h
        injection h with h1 h2
        subst h1
        exact @execInst_meminv (setIr s inst) inst E hexec hm

/-- The auto-run loop preserves the memory invariant. -/
lemma runAutoLoop_meminv {fuel : Nat} {s s1 : EmuState} {n : Nat}
    (hrun : runAutoLoop s fuel = some (s1, n)) (hm : MemInv s.memory) :
    MemInv s1.memory := by
  induction fuel generalizing s n with
  | zero =>
    injection hrun with h
    injection h with h1 h2
    subst h1
    exact hm
  | succ f ih =>
    unfold runAutoLoop at hrun
    split at hrun
    · cases hstep : execute_step s with
      | none => rw [hstep] at hrun; exact absurd hrun (by simp)
      | some p =>
        rcases p with ⟨s2, b2⟩
        rw [hstep] at hrun
        dsimp only at hrun
        cases hrec : runAutoLoop s2 f with
        | none => rw [hrec] at hrun; exact absurd hrun (by simp)
        | some q =>
          rcases q with ⟨s3, n3⟩
          rw [hrec] at hrun
          dsimp only at hrun
          injection hrun with h
          injection h with h1 h2
          subst h1
          exact ih hrec (execute_step_meminv hstep hm)
    · injection hrun with h
      injection h with h1 h2
      subst h1
      exact hm

/-- The auto-run driver preserves the memory invariant. -/
lemma run_auto_meminv {maxSteps : Nat} {s s1 : EmuState} {b : Bool}
    (hrun : run_auto s maxSteps = some (s1, b)) (hm : MemInv s.memory) :
    MemInv s1.memory := by
  unfold run_auto at hrun
  cases hloop : runAutoLoop s maxSteps with
  | none => rw [hloop] at hrun; exact absurd hrun (by simp)
  | some p =>
    rcases p with ⟨s2, n2⟩
    rw [hloop] at hrun
    dsimp only at hrun
    split at hrun
    · injection hrun with h
      injection h with h1 h2
      subst h1
      exact @runAutoLoop_meminv maxSteps s s2 n2 hloop hm
    · injection hrun with h
      injection h with h1 h2
      subst h1
      exact @runAutoLoop_meminv maxSteps s s2 n2 hloop hm

/-- Parsing always leaves the data memory empty. -/
lemma parse_program_memory (code : String) :
    (parse_program code).1.memory = [] := by
  unfold parse_program
  dsimp only
  split <;> rfl

/-! ## Parser loop characterization -/

/-- If the first k lines carry recognized opcodes and the k-th line
(0-based) carries an unrecognized one, the parse loop stops there: it
returns the instructions parsed so far and the 1-based enumeration
index of the offending line together with its lowercased opcode
token. -/
lemma parseLoop_spec :
    ∀ (lines : List String) (k i : Nat) (acc : List Instruction) (lk tok : String),
    (∀ j, j < k → ∀ l, lines.get? j = some l →
        ∃ op, lineOpcode l = some op ∧ op ∈ OPCODES) →
    lines.get? k = some lk →
    lineOpcode lk = some tok →
    tok ∉ OPCODES →
    parseLoop lines i acc =
      (acc ++ (lines.take k).map lineToInst, some (.unknownOpcode (i + k + 1) tok)) := by
  intro lines
  induction lines with
  | nil =>
    intro k i acc lk tok _ hk _ _
    simp at hk
  | cons l rest ih =>
    intro k i acc lk tok hgood hk hop hbad
    cases k with
    | zero =>
      rw [List.get?_cons_zero] at hk
      injection hk with hk
      subst hk
      unfold lineOpcode at hop
      cases hsplit : pysplitWs l with
      | nil => rw [hsplit] at hop; simp at hop
      | cons p0 ps =>
        rw [hsplit] at hop
        simp only [List.head?_cons, Option.map_some'] at hop
        injection hop with hop
        simp only [parseLoop]
        rw [hsplit]
        dsimp only
        rw [hop, if_neg hbad]
        simp
    | succ k2 =>
      obtain ⟨op, hopl, hopin⟩ :=
        hgood 0 (Nat.succ_pos k2) l (by rw [List.get?_cons_zero])
      unfold lineOpcode at hopl
      cases hsplit : pysplitWs l with
      | nil => rw [hsplit] at hopl; simp at hopl
      | cons p0 ps =>
        rw [hsplit] at hopl
        simp only [List.head?_cons, Option.map_some'] at hopl
        injection hopl with hopl
        simp only [parseLoop]
        rw [hsplit]
        dsimp only
        rw [hopl, if_pos hopin]
        have hgood2 : ∀ j, j < k2 → ∀ l2, rest.get? j = some l2 →
            ∃ op2, lineOpcode l2 = some op2 ∧ op2 ∈ OPCODES := by
          intro j hj l2 hl2
          exact hgood (j + 1) (Nat.succ_lt_succ hj) l2 (by rw [List.get?_cons_succ]; exact hl2)
        have hk2 : rest.get? k2 = some lk := by
          rw [List.get?_cons_succ] at hk; exact hk
        rw [ih k2 (i + 1) (acc ++ [lineToInst l]) lk tok hgood2 hk2 hop hbad]
        simp only [Prod.mk.injEq]
        constructor
        · simp [List.take_succ_cons]
        · have harith : i + 1 + k2 + 1 = i + (k2 + 1) + 1 := by omega
          rw [harith]

/-! ## Auto-run loop lemmas -/

/-- The loop never performs more iterations than its fuel. -/
lemma runAutoLoop_le :
    ∀ (fuel : Nat) (s s1 : EmuState) (n : Nat),
    runAutoLoop s fuel = some (s1, n) → n ≤ fuel := by
  intro fuel
  induction fuel with
  | zero =>
    intro s s1 n h
    injection h with h
    injection h with h1 h2
    omega
  | succ f ih =>
    intro s s1 n h
    unfold runAutoLoop at h
    split at h
    · cases hstep : execute_step s with
      | none => rw [hstep] at h; exact absurd h (by simp)
      | some p =>
        rcases p with ⟨s2, b2⟩
        rw [hstep] at h
        dsimp only at h
        cases hrec : runAutoLoop s2 f with
        | none => rw [hrec] at h; exact absurd h (by simp)
        | some q =>
          rcases q with ⟨s3, n3⟩
          rw [hrec] at h
          dsimp only at h
          injection h with h
          injection h with h1 h2
          have := ih s2 s3 n3 hrec
          omega
    · injection h with h
      injection h with h1 h2
      omega

/-- Performing the loop is the same as calling the step method once per
loop iteration: if the loop made n steps from s and ended at s1, then n
manual step calls from s also end exactly at s1. -/
lemma runAutoLoop_stepN :
    ∀ (fuel : Nat) (s s1 : EmuState) (n : Nat),
    runAutoLoop s fuel = some (s1, n) → stepN n s = some s1 := by
  intro fuel
  induction fuel with
  | zero =>
    intro s s1 n h
    injection h with h
    injection h with h1 h2
    subst h1
    rw [← h2]
    rfl
  | succ f ih =>
    intro s s1 n h
    unfold runAutoLoop at h
    split at h
    · cases hstep : execute_step s with
      | none => rw [hstep] at h; exact absurd h (by simp)
      | some p =>
        rcases p with ⟨s2, b2⟩
        rw [hstep] at h
        dsimp only at h
        cases hrec : runAutoLoop s2 f with
        | none => rw [hrec] at h; exact absurd h (by simp)
        | some q =>
          rcases q with ⟨s3, n3⟩
          rw [hrec] at h
          dsimp only at h
          injection h with h
          injection h with h1 h2
          subst h1
          rw [← h2]
          simp only [stepN]
          rw [hstep]
          exact ih s2 s3 n3 hrec
    · injection h with h
      injection h with h1 h2
      subst h1
      rw [← h2]
      rfl

/-! ## Claim C1: the sum-of-array scenario -/

/-- The program of the sum-of-array scenario. -/
def sumProgText : String := "mov ecx [0]\nadd eax [ecx]\nsub ecx 1\njnz 1"

/-- Freshly parsed scenario state with address 0 holding the count 6 and
addresses 1..6 holding 100..105, loaded through `set_memory`. -/
def sumStart : EmuState :=
  set_memory (set_memory (set_memory (set_memory (set_memory (set_memory (set_memory
    (parse_program sumProgText).1 0 6) 1 100) 2 101) 3 102) 4 103) 5 104) 6 105

/-- Claim C1: starting from the freshly parsed four-line sum program,
with memory 0 holding 6 and 1..6 holding 100..105, the auto-run driver
with its default budget of 10000 completes and leaves eax = 615 and
ecx = 0. -/
theorem claim1_sum_scenario :
    (parse_program sumProgText).2 = true ∧
    (run_auto sumStart 10000).map
      (fun p => (p.1.registers.eax, p.1.registers.ecx, p.2)) =
      some (615, 0, true) := by
  decide

/-! ## Claim C2: unknown opcode handling -/

/-- Source text whose offending opcode sits on input line 3 but on
retained line 2, with one good line before it. -/
def c2badText : String := "\nmov eax 1\nbad 7"

/-- Claim C2 counterexample: on the input whose third line carries the
unknown opcode (the first line is blank), the parser reports line 2,
not input line 3, and it leaves the already-parsed one-instruction
prefix installed in the program field, so the state is not at its
reset values. -/
theorem claim2_unknown_opcode_cex :
    (parse_program c2badText).1.error_msg = some (.unknownOpcode 2 "bad") ∧
    (parse_program c2badText).1.error_msg ≠ some (.unknownOpcode 3 "bad") ∧
    (parse_program c2badText).1.program ≠ [] ∧
    (parse_program c2badText).2 = false := by
  decide

/-- Claim C2 (amended): if the k-th retained (stripped, non-blank,
non-comment) line is the first one carrying an unrecognized opcode,
parsing fails immediately with the 1-based index k+1 among the retained
lines and the offending lowercased token; registers, flags, memory,
pc, executedCount, the instruction register and the running flag are at
their reset values, while the program field keeps the parsed prefix of
the first k lines. -/
theorem claim2_unknown_opcode (code : String) (k : Nat) (lk tok : String)
    (hgood : ∀ j, j < k → ∀ l, (retainedLines code).get? j = some l →
        ∃ op, lineOpcode l = some op ∧ op ∈ OPCODES)
    (hk : (retainedLines code).get? k = some lk)
    (hop : lineOpcode lk = some tok)
    (hbad : tok ∉ OPCODES) :
    parse_program code =
      ({ initState with
          program := ((retainedLines code).take k).map lineToInst,
          error_msg := some (.unknownOpcode (k + 1) tok) }, false) := by
  unfold parse_program
  rw [parseLoop_spec (retainedLines code) k 0 [] lk tok hgood hk hop hbad]
  dsimp only
  simp only [List.nil_append, Nat.zero_add]

/-- Witness input for the amended claim C2. -/
def c2wText : String := ";start\nmov eax 2\nriddle 9"

/-- Witness for the amended claim C2 at a concrete input: the comment
line is dropped, the good first retained line parses, and the second
retained line fails with its token. -/
theorem claim2_unknown_opcode_w :
    parse_program c2wText =
      ({ initState with
          program := ((retainedLines c2wText).take 1).map lineToInst,
          error_msg := some (.unknownOpcode 2 "riddle") }, false) := by
  refine claim2_unknown_opcode c2wText 1 "riddle 9" "riddle" ?_ (by decide) (by decide) (by decide)
  intro j hj l hl
  have hj0 : j = 0 := by omega
  subst hj0
  have h0 : (retainedLines c2wText).get? 0 = some "mov eax 2" := by decide
  rw [h0] at hl
  injection hl with hl
  subst hl
  exact ⟨"mov", by decide, by decide⟩

/-! ## Claim C3: flag discipline -/

/-- Claim C3: for every executed instruction, add, sub and cmp leave
the flags equal to the flag rendering of their arithmetic result on the
pre-state, and the thirteen other recognized opcodes leave the flags
unchanged. -/
theorem claim3_flag_discipline (s sB : EmuState) (inst : Instruction)
    (hstep : execute_step s = some (sB, true))
    (hfetch : pyListGet s.program s.pc = some inst) :
    (inst.opcode = "add" →
      sB.flags = mkFlags (get_value s inst.operand1 + get_value s inst.operand2)) ∧
    (inst.opcode = "sub" →
      sB.flags = mkFlags (get_value s inst.operand1 - get_value s inst.operand2)) ∧
    (inst.opcode = "cmp" →
      sB.flags = mkFlags (get_value s inst.operand1 - get_value s inst.operand2)) ∧
    (inst.opcode ∈ ["mov", "mul", "div", "and", "or", "xor", "not", "inc",
                    "jmp", "jz", "jnz", "js", "jns"] →
      sB.flags = s.flags) := by
  obtain ⟨E, hexec, hB⟩ :
      ∃ E, execInst (setIr s inst) inst = some E ∧ sB.flags = E.flags := by
    unfold execute_step at hstep
    split at hstep
    · injection hstep with h
      injection h with h1 h2
      exact absurd h2 (by decide)
    · rw [hfetch] at hstep
      dsimp only at hstep
      cases hexec : execInst (setIr s inst) inst with
      | none =>
        rw [hexec] at hstep
        dsimp only at hstep
        injection hstep with h
        injection h with h1 h2
        exact absurd h2 (by decide)
      | some E =>
        rw [hexec] at hstep
        dsimp only at hstep
        injection hstep with h
        injection h with h1 h2
        exact ⟨E, rfl, by rw [← h1]⟩
  rw [hB, execInst_flags hexec]
  rw [get_value_setIr, get_value_setIr, setIr_flags]
  refine ⟨fun h => ?_, fun h => ?_, fun h => ?_, fun h => ?_⟩
  · rw [if_pos h]
  · rw [if_neg (by rw [h]; decide), if_pos h]
  · rw [if_neg (by rw [h]; decide), if_neg (by rw [h]; decide), if_pos h]
  · simp only [List.mem_cons, List.not_mem_nil, or_false] at h
    rcases h with h | h | h | h | h | h | h | h | h | h | h | h | h <;>
      rw [if_neg (by rw [h]; decide), if_neg (by rw [h]; decide),
          if_neg (by rw [h]; decide)]

/-- Concrete starting state for the claim C3 witness. -/
def c3Start : EmuState := (parse_program "add eax 3").1

/-- The state after one step of the claim C3 witness program. -/
def c3After : EmuState :=
  match execute_step c3Start with
  | some p => p.1
  | none => c3Start

/-- Witness for claim C3: one executed add sets the flags from its
result. -/
theorem claim3_flag_discipline_w :
    c3After.flags = mkFlags (get_value c3Start "eax" + get_value c3Start "3") :=
  (claim3_flag_discipline c3Start c3After ⟨"add", "eax", "3", "add eax 3"⟩
    (by decide) (by decide)).1 rfl

/-! ## Claim C5: step bookkeeping -/

/-- A reachable state (two steps after parsing the program "jmp -2")
whose pc is below the negative-wraparound range of the one-instruction
program. -/
def c5CrashState : EmuState :=
  { initState with
      running := true
      pc := -2
      program := [⟨"mov", "eax", "1", "mov eax 1"⟩] }

/-- A reachable state (one mov of the literal 10^400 into eax away
from a fresh parse) about to execute a div whose float quotient
overflows. -/
def c5DivState : EmuState :=
  { initState with
      running := true
      registers := ⟨10 ^ 400, 0, 0, 0⟩
      program := [⟨"div", "eax", "3", "div eax 3"⟩] }

/-- Claim C5 counterexample, refuting the claim as stated in two
independent ways.  First, with running true and pc = -2 below
-len(program), the premises of the claim hold (pc < program length),
but the fetch raises an uncaught IndexError, so no step outcome exists
and executedCount cannot be incremented.  Second, with running true and
pc = 0 in range, div eax 3 with eax = 10^400 raises OverflowError
inside the try block (the float quotient overflows the double range);
the except clause returns False with executedCount and pc unchanged,
the error recorded and running forced false, so the step does not
increment executedCount. -/
theorem claim5_step_counters_cex :
    (c5CrashState.running = true ∧
      c5CrashState.pc < (c5CrashState.program.length : Int) ∧
      execute_step c5CrashState = none) ∧
    (c5DivState.running = true ∧ 0 ≤ c5DivState.pc ∧
      c5DivState.pc < (c5DivState.program.length : Int) ∧
      (execute_step c5DivState).map
        (fun p => (p.2, p.1.executed_count, p.1.pc, p.1.running, p.1.error_msg)) =
        some (false, 0, 0, false, some .execFailure)) := by
  decide

/-- Claim C5 (amended): consider any state with running true,
-len(program) ≤ pc < len(program) (the range on which the Python fetch
succeeds, wrapping negative indices), and its fetched instruction.
Unless that instruction is a div with a nonzero divisor whose float
quotient overflows, the step executes it: executedCount is incremented
by exactly 1, and pc is incremented by exactly 1 for every opcode
except a taken jump, which instead leaves pc equal to the value read
from the target operand.  In the overflow case the dispatch raises;
the except clause makes the step report failure, record the error and
set running false, leaving executedCount and pc unchanged. -/
theorem claim5_step_counters (s : EmuState) (inst : Instruction)
    (hrun : s.running = true)
    (hlow : -(s.program.length : Int) ≤ s.pc)
    (hhigh : s.pc < (s.program.length : Int))
    (hfetch : pyListGet s.program s.pc = some inst) :
    (¬ divErrStep s inst →
      ∃ sB, execute_step s = some (sB, true) ∧
        sB.executed_count = s.executed_count + 1 ∧
        (takenJump s inst → sB.pc = get_value s inst.operand1) ∧
        (¬ takenJump s inst → sB.pc = s.pc + 1)) ∧
    (divErrStep s inst →
      ∃ sB, execute_step s = some (sB, false) ∧
        sB.executed_count = s.executed_count ∧
        sB.pc = s.pc ∧
        sB.running = false ∧
        sB.error_msg = some .execFailure) := by
  constructor
  · intro hne
    obtain ⟨E, hexec⟩ :=
      execInst_total (show ¬ divErrStep (setIr s inst) inst from hne)
    refine ⟨_, execute_step_run s inst hrun hhigh hfetch hexec, ?_, ?_, ?_⟩
    · show E.executed_count + 1 = s.executed_count + 1
      rw [execInst_executed hexec]
      rfl
    · intro ht
      show E.pc + 1 = get_value s inst.operand1
      rw [execInst_pc hexec, if_pos (show takenJump (setIr s inst) inst from ht),
          get_value_setIr]
      omega
    · intro hnt
      show E.pc + 1 = s.pc + 1
      rw [execInst_pc hexec, if_neg (show ¬ takenJump (setIr s inst) inst from hnt)]
      rfl
  · intro hd
    exact ⟨_, execute_step_err s inst hrun hhigh hfetch
      (execInst_err_of (show divErrStep (setIr s inst) inst from hd)),
      rfl, rfl, rfl, rfl⟩

/-- Concrete starting state for the claim C5 witness. -/
def c5wStart : EmuState := (parse_program "inc eax").1

/-- Fetched instruction of the claim C5 witness program. -/
def c5wInst : Instruction := ⟨"inc", "eax", "", "inc eax"⟩

/-- Witness for the amended claim C5 at a concrete one-instruction
program, exercising the non-error half with every hypothesis
discharged concretely. -/
theorem claim5_step_counters_w :
    ∃ sB, execute_step c5wStart = some (sB, true) ∧
      sB.executed_count = c5wStart.executed_count + 1 ∧
      (takenJump c5wStart c5wInst → sB.pc = get_value c5wStart c5wInst.operand1) ∧
      (¬ takenJump c5wStart c5wInst → sB.pc = c5wStart.pc + 1) :=
  (claim5_step_counters c5wStart c5wInst
      (by decide) (by decide) (by decide) (by decide)).1 (by decide)

/-! ## Claim C6: memory round-trip -/

/-- Claim C6: for in-range addresses, setMemory followed by getMemory
returns the written value; for out-of-range addresses, setMemory leaves
the entire machine state unchanged and getMemory returns 0 (the latter
on any state whose memory keys satisfy the invariant the emulator
maintains). -/
theorem claim6_memory_roundtrip (s : EmuState) (a v : Int) :
    (0 ≤ a → a < 4096 → get_memory (set_memory s a v) a = v) ∧
    (a < 0 ∨ 4096 ≤ a →
      set_memory s a v = s ∧ (MemInv s.memory → get_memory s a = 0)) := by
  constructor
  · intro h0 h4
    unfold get_memory set_memory
    rw [if_pos ⟨h0, h4⟩]
    exact dictGet_dictSet_self a v s.memory
  · intro hout
    refine ⟨?_, fun hm => dictGet_out_of_range hout s.memory hm⟩
    unfold set_memory
    rw [if_neg (by omega)]

/-- Witness for claim C6 at a concrete in-range and a concrete
out-of-range address. -/
theorem claim6_memory_roundtrip_w :
    get_memory (set_memory initState 5 42) 5 = 42 ∧
    set_memory initState 5000 42 = initState ∧
    get_memory initState 5000 = 0 :=
  ⟨(claim6_memory_roundtrip initState 5 42).1 (by decide) (by decide),
   ((claim6_memory_roundtrip initState 5000 42).2 (Or.inr (by decide))).1,
   ((claim6_memory_roundtrip initState 5000 42).2 (Or.inr (by decide))).2 (by decide)⟩

/-! ## Claim C7: immediate operands are not writable -/

/-- Claim C7: writing any value through any operand token that
`decode_operand` classifies as immediate (mode code 1) leaves the whole
machine state unchanged. -/
theorem claim7_imm_write_noop (s : EmuState) (op : String) (v : Int)
    (himm : (decode_operand op).1 = 1) :
    set_value s op v = s := by
  unfold decode_operand at himm
  dsimp only at himm
  split at himm
  · split at himm <;> simp at himm
  · split at himm
    · simp at himm
    · rename_i hbr hreg
      unfold set_value
      dsimp only
      rw [if_neg hbr, if_neg hreg]

/-- Witness for claim C7 at the literal immediate token of the spec. -/
theorem claim7_imm_write_noop_w : set_value initState "5" 42 = initState :=
  claim7_imm_write_noop initState "5" 42 (by decide)

/-! ## Claim C8: limit reporting of the auto-run driver -/

/-- Freshly parsed non-terminating one-instruction program. -/
def c8Jmp : EmuState := (parse_program "jmp 0").1

/-- Freshly parsed program that halts after exactly one step. -/
def c8One : EmuState := (parse_program "mov eax 1").1

/-- Claim C8 counterexample: the one-instruction program halts within a
budget of 1 (its pc reaches the program length), yet run_auto reports
failure with the limit error rather than the completed outcome. -/
theorem claim8_limit_reporting_cex :
    (run_auto c8One 1).map (fun p => (p.2, p.1.pc, p.1.error_msg)) =
      some (false, 1, some .limitExceeded) ∧
    c8One.program.length = 1 := by
  decide

/-- Claim C8 (amended): the driver reports LimitExceeded exactly when
its loop performed maxSteps iterations, which includes a machine that
halts on exactly the maxSteps-th step; when the loop exits after
strictly fewer iterations the driver reports completion.  A
non-terminating program run with maxSteps = 100 yields LimitExceeded
with exactly 100 executed steps and running still true. -/
theorem claim8_limit_reporting :
    (∀ (s : EmuState) (maxSteps : Nat) (s1 : EmuState) (n : Nat),
      runAutoLoop s maxSteps = some (s1, n) →
        (n = maxSteps →
          run_auto s maxSteps =
            some ({ s1 with error_msg := some .limitExceeded }, false)) ∧
        (n < maxSteps → run_auto s maxSteps = some (s1, true))) ∧
    (run_auto c8Jmp 100).map
      (fun p => (p.1.executed_count, p.1.running, p.2, p.1.error_msg)) =
      some (100, true, false, some .limitExceeded) := by
  constructor
  · intro s maxSteps s1 n hloop
    constructor
    · intro hn
      unfold run_auto
      rw [hloop]
      dsimp only
      rw [if_pos (by omega)]
    · intro hn
      unfold run_auto
      rw [hloop]
      dsimp only
      rw [if_neg (by omega)]
  · decide

/-- Final state of the claim C8 witness program under the loop. -/
def c8Done : EmuState := ((runAutoLoop c8One 5).getD (initState, 0)).1

/-- Witness for the amended claim C8: a program halting in 1 < 5 steps
is reported as completed. -/
theorem claim8_limit_reporting_w :
    run_auto c8One 5 = some (c8Done, true) :=
  (claim8_limit_reporting.1 c8One 5 c8Done 1 (by decide)).2 (by decide)

/-! ## Claim C9: auto-run refines repeated stepping -/

/-- Claim C9: whenever the auto-run loop performs N ≤ maxSteps steps
from a state, calling the step method N times from the same state
reaches exactly the loop's final state, and the driver's returned state
agrees with it on registers, flags, memory, pc and executedCount (the
driver may additionally record the limit error message). -/
theorem claim9_auto_equiv_step (s : EmuState) (maxSteps N : Nat) (sA : EmuState)
    (hN : N ≤ maxSteps) (hloop : runAutoLoop s maxSteps = some (sA, N)) :
    ∃ sB b, run_auto s maxSteps = some (sB, b) ∧
      stepN N s = some sA ∧
      sB.registers = sA.registers ∧ sB.flags = sA.flags ∧
      sB.memory = sA.memory ∧ sB.pc = sA.pc ∧
      sB.executed_count = sA.executed_count := by
  have hstep := runAutoLoop_stepN maxSteps s sA N hloop
  unfold run_auto
  rw [hloop]
  dsimp only
  by_cases hn : maxSteps ≤ N
  · rw [if_pos hn]
    exact ⟨_, _, rfl, hstep, rfl, rfl, rfl, rfl, rfl⟩
  · rw [if_neg hn]
    exact ⟨_, _, rfl, hstep, rfl, rfl, rfl, rfl, rfl⟩

/-- Concrete starting state for the claim C9 witness. -/
def c9Start : EmuState := (parse_program "mov eax 1\nmov ebx 2").1

/-- Final state of the claim C9 witness program under the loop. -/
def c9Mid : EmuState := ((runAutoLoop c9Start 5).getD (initState, 0)).1

/-- Witness for claim C9 on a two-instruction program run with budget
5: the loop performs 2 steps and stepping twice reaches the same
state. -/
theorem claim9_auto_equiv_step_w :
    ∃ sB b, run_auto c9Start 5 = some (sB, b) ∧
      stepN 2 c9Start = some c9Mid ∧
      sB.registers = c9Mid.registers ∧ sB.flags = c9Mid.flags ∧
      sB.memory = c9Mid.memory ∧ sB.pc = c9Mid.pc ∧
      sB.executed_count = c9Mid.executed_count :=
  claim9_auto_equiv_step c9Start 5 2 c9Mid (by decide) (by decide)

/-! ## Claim C10: the memory-range invariant -/

/-- Claim C10: reset, parse, step, auto-run and setMemory all keep
every key of the sparse memory inside [0, 4096); consequently
getMemory, whose read path has no bounds check, returns 0 on every
out-of-range address of a state satisfying the invariant. -/
theorem claim10_memory_invariant :
    MemInv initState.memory ∧
    (∀ code, MemInv (parse_program code).1.memory) ∧
    (∀ (s : EmuState) (a v : Int), MemInv s.memory →
      MemInv (set_memory s a v).memory) ∧
    (∀ (s s1 : EmuState) (b : Bool), execute_step s = some (s1, b) →
      MemInv s.memory → MemInv s1.memory) ∧
    (∀ (s : EmuState) (maxSteps : Nat) (s1 : EmuState) (b : Bool),
      run_auto s maxSteps = some (s1, b) → MemInv s.memory → MemInv s1.memory) ∧
    (∀ (s : EmuState) (a : Int), MemInv s.memory → a < 0 ∨ 4096 ≤ a →
      get_memory s a = 0) := by
  refine ⟨?_, ?_, ?_, ?_, ?_, ?_⟩
  · intro p hp
    exact absurd hp (List.not_mem_nil p)
  · intro code p hp
    rw [parse_program_memory] at hp
    exact absurd hp (List.not_mem_nil p)
  · intro s a v hm
    exact set_memory_meminv hm a v
  · intro s s1 b h hm
    exact execute_step_meminv h hm
  · intro s maxSteps s1 b h hm
    exact run_auto_meminv h hm
  · intro s a hm hout
    exact dictGet_out_of_range hout s.memory hm

/-- Witness for claim C10: a concrete write keeps the invariant and a
concrete negative address reads 0. -/
theorem claim10_memory_invariant_w :
    MemInv (set_memory initState 9 7).memory ∧ get_memory initState (-3) = 0 :=
  ⟨claim10_memory_invariant.2.2.1 initState 9 7 (by decide),
   claim10_memory_invariant.2.2.2.2.2 initState (-3) (by decide) (Or.inl (by decide))⟩
